import Mathlib

/-!
Shallow embedding of the article-processing pipeline of the
Financial-News-Intelligence-System repository.

The pipeline (src/workflow.py) threads an `AgentState` through four stages:
deduplication (src/agents/deduplication_agent.py), entity extraction
(src/agents/entity_extraction_agent.py), stock-impact analysis
(src/agents/stock_impact_agent.py) and storage (src/agents/storage_agent.py).
External capabilities (the vector index, the spaCy tagger, the LLM calls and
the database) are modelled as explicit parameters carrying either a result or
the exception they raised.  Floats are modelled as rationals: the code only
copies and compares confidences and subtracts a score from 1, so ℚ is exact
for every comparison the claims mention.  Decimal literals such as `0.7` are
written `mkRat 7 10`.  Python string operations are modelled character-wise
(`str.lower()` maps `Char.toLower` over the characters, as the repository's
data is ASCII).
-/

namespace FinNews

/-- Python `s.lower()`: character-wise lowercasing. -/
def strLower (s : String) : String := String.mk (s.data.map Char.toLower)

/-- Python `s.upper()`: character-wise uppercasing. -/
def strUpper (s : String) : String := String.mk (s.data.map Char.toUpper)

/-- Python `s.replace(" ", "")`: drop every space character. -/
def stripSpaces (s : String) : String :=
  String.mk (s.data.filter (fun c => c ≠ ' '))

/-- Python `s[:n]`: the first `n` characters. -/
def strTake (s : String) (n : Nat) : String := String.mk (s.data.take n)

/-- Python `sub in s` (substring containment), on character lists. -/
def hasSubList (sub : List Char) : List Char → Bool
  | [] => sub.isEmpty
  | c :: cs => sub.isPrefixOf (c :: cs) || hasSubList sub cs

/-- Python `sub in s` on strings. -/
def strContainsSub (s sub : String) : Bool := hasSubList sub.data s.data

/-- `src/models.py` `Entity`: a typed entity extracted from an article. -/
structure Entity where
  text : String
  type : String
  confidence : ℚ
deriving DecidableEq, Repr

/-- `src/models.py` `StockImpact`: an inferred impact on one stock symbol. -/
structure StockImpact where
  symbol : String
  confidence : ℚ
  type : String
  reasoning : Option String
deriving DecidableEq, Repr

/-- `src/models.py` `NewsArticle`; `published_at` is kept opaque as a string. -/
structure NewsArticle where
  article_id : String
  title : String
  content : String
  source : String
  published_at : String
  url : Option String
deriving DecidableEq, Repr

/-- A value stored in the `processing_metadata` dict of `AgentState`. -/
inductive MetaVal where
  | num (q : ℚ)
  | int (n : Nat)
  | bool (b : Bool)
deriving DecidableEq, Repr

/-- Python dict assignment `m[k] = v`: replace the existing entry in place,
or append a new one. -/
def metaSet : List (String × MetaVal) → String → MetaVal → List (String × MetaVal)
  | [], k, v => [(k, v)]
  | (k0, v0) :: rest, k, v =>
    if k0 = k then (k, v) :: rest else (k0, v0) :: metaSet rest k v

/-- Python dict lookup `m.get(k)`. -/
def metaGet : List (String × MetaVal) → String → Option MetaVal
  | [], _ => none
  | (k0, v0) :: rest, k => if k0 = k then some v0 else metaGet rest k

/-- `src/models.py` `AgentState`: the state threaded between the stages. -/
structure AgentState where
  article : NewsArticle
  is_duplicate : Bool
  duplicate_of : Option String
  entities : List Entity
  stock_impacts : List StockImpact
  processing_metadata : List (String × MetaVal)
  error : Option String
deriving DecidableEq, Repr

/-- `AgentState(article=article)` with the pydantic defaults
(src/workflow.py `process_article`). -/
def initialState (article : NewsArticle) : AgentState :=
  { article := article, is_duplicate := false, duplicate_of := none,
    entities := [], stock_impacts := [], processing_metadata := [],
    error := none }

/-! ### Entity merge (`EntityExtractionAgent.merge_entities`) -/

/-- The dict key `(entity.text.lower(), entity.type)`. -/
def ekey (e : Entity) : String × String := (strLower e.text, e.type)

/-- The in-place update of the `else` branch of `merge_entities`: the object
`seen[key]` (which is the very object appended to `merged`) gets its
confidence raised when the new entity with the same key has strictly higher
confidence. -/
def updateConf (e m : Entity) : Entity :=
  if ekey m = ekey e ∧ e.confidence > m.confidence
  then { m with confidence := e.confidence } else m

/-- The loop of `merge_entities`.  In the Python code the dict `seen` maps
each key to the object stored in `merged`, so its key set is exactly
`merged.map ekey` and the in-place confidence update is an update of the
corresponding entry of `merged`; the embedding therefore carries only
`merged`. -/
def mergeGo : List Entity → List Entity → List Entity
  | [], merged => merged
  | e :: rest, merged =>
    if ekey e ∈ merged.map ekey then mergeGo rest (merged.map (updateConf e))
    else mergeGo rest (merged ++ [e])

/-- `EntityExtractionAgent.merge_entities` (entity_extraction_agent.py
lines 111-125). -/
def merge_entities (entities : List Entity) : List Entity := mergeGo entities []

/-- All the in-place updates an entry receives from a list of later
entities, in order. -/
def bumpAll (es : List Entity) (m : Entity) : Entity :=
  es.foldl (fun m e => updateConf e m) m

/-- Reference shape of the part of the merge result contributed by keys not
yet seen: first occurrence of each fresh key, confidence bumped by every
later same-key entity. -/
def newPart : List Entity → List (String × String) → List Entity
  | [], _ => []
  | e :: rest, ks =>
    if ekey e ∈ ks then newPart rest ks
    else bumpAll rest e :: newPart rest (ekey e :: ks)

/-- First-occurrence deduplication of a key list, avoiding an initial set. -/
def dedupAvoid {α : Type} [DecidableEq α] : List α → List α → List α
  | [], _ => []
  | k :: rest, ks =>
    if k ∈ ks then dedupAvoid rest ks else k :: dedupAvoid rest (k :: ks)

/-! ### Impact merge (`StockImpactAgent.merge_impacts`) -/

/-- One step of the impact merge seen from an existing entry `s`: the
incoming impact `i` fully replaces `s` exactly when the symbols agree and
`i.confidence` is strictly greater. -/
def replStep (s i : StockImpact) : StockImpact :=
  if i.symbol = s.symbol ∧ i.confidence > s.confidence then i else s

/-- The loop of `merge_impacts` (stock_impact_agent.py lines 138-150).  The
dict `seen` preserves first-insertion order of symbols and `list(seen.values())`
returns the entries in that order, so it is carried as a list with distinct
symbols; `seen[symbol] = impact` replaces the entry in place. -/
def mergeImpactsGo : List StockImpact → List StockImpact → List StockImpact
  | [], seen => seen
  | i :: rest, seen =>
    if i.symbol ∈ seen.map StockImpact.symbol then
      mergeImpactsGo rest (seen.map (fun s => replStep s i))
    else mergeImpactsGo rest (seen ++ [i])

/-- `StockImpactAgent.merge_impacts`. -/
def merge_impacts (impacts : List StockImpact) : List StockImpact :=
  mergeImpactsGo impacts []

/-- All replacements an entry receives from a list of later impacts. -/
def replAll (es : List StockImpact) (s : StockImpact) : StockImpact :=
  es.foldl replStep s

/-- Reference shape of the impact-merge result contributed by fresh symbols. -/
def newImpacts : List StockImpact → List String → List StockImpact
  | [], _ => []
  | i :: rest, ks =>
    if i.symbol ∈ ks then newImpacts rest ks
    else replAll rest i :: newImpacts rest (i.symbol :: ks)

/-- The replacement rule of the spec, on two impacts with the same symbol:
the later one wins exactly when its confidence is strictly greater. -/
def pickRule (a b : StockImpact) : StockImpact :=
  if b.confidence > a.confidence then b else a

/-! ### Entity-extraction stage (`src/agents/entity_extraction_agent.py`) -/

/-- The `sector_keywords` table of `EntityExtractionAgent.__init__`. -/
def sector_keywords : List (String × List String) :=
  [("Banking", ["bank", "banking", "credit", "loan", "mortgage"]),
   ("Technology", ["tech", "software", "ai", "cloud", "digital"]),
   ("Pharmaceutical", ["pharma", "drug", "medicine", "healthcare"]),
   ("Energy", ["oil", "gas", "energy", "power", "renewable"]),
   ("Financial Services", ["finance", "investment", "insurance", "asset management"]),
   ("Automotive", ["auto", "car", "vehicle", "automotive"]),
   ("Telecommunications", ["telecom", "mobile", "network", "5g"]),
   ("Retail", ["retail", "consumer", "e-commerce", "shopping"])]

/-- The `regulator_keywords` list of `EntityExtractionAgent.__init__`. -/
def regulator_keywords : List String :=
  ["RBI", "Reserve Bank", "SEBI", "SEC", "Federal Reserve", "Fed",
   "Central Bank", "Monetary Authority", "Financial Authority"]

/-- `EntityExtractionAgent.extract_sectors`: for each sector whose keyword
list has a member contained in the lowercased text, one SECTOR entity at
confidence 0.7 (the inner loop `break`s after the first matching keyword,
so at most one entity per sector). -/
def extract_sectors (text : String) : List Entity :=
  let text_lower := strLower text
  sector_keywords.filterMap (fun p =>
    if p.2.any (fun keyword => strContainsSub text_lower keyword)
    then some ⟨p.1, "SECTOR", mkRat 7 10⟩ else none)

/-- A result of the external spaCy tagger: one recognized span. -/
structure SpacyEnt where
  text : String
  label : String
deriving DecidableEq, Repr

/-- `EntityExtractionAgent.extract_with_spacy`: ORG spans become COMPANY
entities and PERSON spans PERSON entities, both at confidence 0.8; other
labels are dropped.  The tagger itself is an external capability, so its
output list is a parameter. -/
def extract_with_spacy (ents : List SpacyEnt) : List Entity :=
  ents.filterMap (fun ent =>
    if ent.label = "ORG" then some ⟨ent.text, "COMPANY", mkRat 8 10⟩
    else if ent.label = "PERSON" then some ⟨ent.text, "PERSON", mkRat 8 10⟩
    else none)

/-- Python regex `\w` (ASCII): letters, digits and underscore. -/
def isWordChar (c : Char) : Bool := c.isAlphanum || c = '_'

/-- Case-insensitive literal prefix match; returns the remainder on success. -/
def ciPrefix : List Char → List Char → Option (List Char)
  | [], s => some s
  | _ :: _, [] => none
  | p :: ps, c :: cs => if p.toLower = c.toLower then ciPrefix ps cs else none

/-- Does `pat` match at this position with `\b` on both sides?  `prev` is the
character before the position (`none` at the start of the text).  All the
regulator keywords begin and end with word characters, so for them `\b`
means: the neighbouring character, when present, is not a word character. -/
def wordBoundaryAt (prev : Option Char) (pat s : List Char) : Bool :=
  match ciPrefix pat s with
  | none => false
  | some rest =>
    (match prev with | none => true | some c => !(isWordChar c)) &&
    (match rest with | [] => true | c :: _ => !(isWordChar c))

/-- Scan all positions of the text for a `\b pat \b` match. -/
def wbSearch (pat : List Char) (prev : Option Char) : List Char → Bool
  | [] => wordBoundaryAt prev pat []
  | c :: cs => wordBoundaryAt prev pat (c :: cs) || wbSearch pat (some c) cs

/-- Python `re.search(r"\b" + re.escape(pat) + r"\b", text, re.IGNORECASE)`
viewed as a Boolean. -/
def regexWordSearch (pat text : String) : Bool :=
  wbSearch pat.data none text.data

/-- `EntityExtractionAgent.extract_regulators`: one REGULATOR entity at
confidence 0.9 per regulator keyword found with word boundaries,
case-insensitively. -/
def extract_regulators (text : String) : List Entity :=
  regulator_keywords.filterMap (fun regulator =>
    if regexWordSearch regulator text
    then some ⟨regulator, "REGULATOR", mkRat 9 10⟩ else none)

/-- The structured object the LLM extraction capability returns. -/
structure LLMEntities where
  companies : List String
  sectors : List String
  regulators : List String
  people : List String
  events : List String
deriving DecidableEq, Repr

/-- The five empty lists. -/
def emptyLLMEntities : LLMEntities := ⟨[], [], [], [], []⟩

/-- `EntityExtractionAgent.extract_with_llm` (lines 95-109): the LLM chain is
an external capability whose outcome is the parameter; any exception is
caught and degraded to the five empty lists. -/
def extract_with_llm (llmResult : Except String LLMEntities) : LLMEntities :=
  match llmResult with
  | Except.ok r => r
  | Except.error _ => emptyLLMEntities

/-- The per-category entity construction of `EntityExtractionAgent.process`
lines 153-166. -/
def llmEntityList (r : LLMEntities) : List Entity :=
  r.companies.map (fun c => ⟨c, "COMPANY", mkRat 9 10⟩) ++
  r.sectors.map (fun s => ⟨s, "SECTOR", mkRat 9 10⟩) ++
  r.regulators.map (fun s => ⟨s, "REGULATOR", mkRat 95 100⟩) ++
  r.people.map (fun s => ⟨s, "PERSON", mkRat 85 100⟩) ++
  r.events.map (fun s => ⟨s, "EVENT", mkRat 8 10⟩)

/-- Environment of one entity-extraction run: the spaCy output on the
article's full text, and the LLM call's outcome. -/
structure EntityEnv where
  spacyEnts : List SpacyEnt
  llmResult : Except String LLMEntities

/-- `EntityExtractionAgent.process` (lines 127-181).  Duplicates are skipped
(state returned unchanged); otherwise the four extraction sources run on
`f"{title} {content}"`, are concatenated in source order, merged, and the
entity count recorded.  In the typed embedding the `AgentState(**state)`
validation and the `Entity` constructors cannot raise, so the function's own
`except` branch is unreachable and does not appear. -/
def entityExtractionProcess (state : AgentState) (env : EntityEnv) : AgentState :=
  if state.is_duplicate then state
  else
    let full_text := state.article.title ++ " " ++ state.article.content
    let entities :=
      extract_with_spacy env.spacyEnts ++
      extract_sectors full_text ++
      extract_regulators full_text ++
      llmEntityList (extract_with_llm env.llmResult)
    let merged := merge_entities entities
    { state with
      entities := merged,
      processing_metadata :=
        metaSet state.processing_metadata "entity_count" (MetaVal.int merged.length) }

/-! ### Stock-impact stage (`src/agents/stock_impact_agent.py`) -/

/-- The `company_symbols` table of `StockImpactAgent.__init__`, in insertion
order. -/
def company_symbols : List (String × String) :=
  [("HDFC Bank", "HDFCBANK"), ("ICICI Bank", "ICICIBANK"),
   ("State Bank", "SBIN"), ("Reliance", "RELIANCE"), ("TCS", "TCS"),
   ("Infosys", "INFY"), ("Wipro", "WIPRO"), ("Asian Paints", "ASIANPAINT"),
   ("ITC", "ITC"), ("Larsen", "LT")]

/-- The `sector_stocks` table of `StockImpactAgent.__init__`. -/
def sector_stocks : List (String × List String) :=
  [("Banking", ["HDFCBANK", "ICICIBANK", "SBIN", "AXISBANK", "KOTAKBANK"]),
   ("Technology", ["TCS", "INFY", "WIPRO", "TECHM", "HCLTECH"]),
   ("Pharmaceutical", ["SUNPHARMA", "DRREDDY", "CIPLA", "DIVISLAB"]),
   ("Energy", ["RELIANCE", "ONGC", "BPCL", "IOC"]),
   ("Financial Services", ["BAJFINANCE", "BAJAJFINSV", "HDFCLIFE", "SBILIFE"]),
   ("Automotive", ["MARUTI", "M&M", "TATAMOTORS", "HEROMOTOCO"])]

/-- `config.CONFIDENCE_LEVELS["direct"]` (src/config.py): 1.0. -/
def confidenceDirect : ℚ := 1

/-- `config.CONFIDENCE_LEVELS["sector_high"]`: 0.8. -/
def confidenceSectorHigh : ℚ := mkRat 8 10

/-- `config.CONFIDENCE_LEVELS["regulatory"]`: 0.5. -/
def confidenceRegulatory : ℚ := mkRat 5 10

/-- The loop of `StockImpactAgent.map_company_to_symbol`: return the symbol
of the first table entry whose lowercased name contains, or is contained in,
the lowercased company text (`name.lower() in company.lower() or
company.lower() in name.lower()`); fall back to the uppercased, space-stripped
text truncated to 10 characters. -/
def mctsGo (company : String) : List (String × String) → String
  | [] => strTake (stripSpaces (strUpper company)) 10
  | (name, symbol) :: rest =>
    if strContainsSub (strLower company) (strLower name) ||
       strContainsSub (strLower name) (strLower company)
    then symbol else mctsGo company rest

/-- `StockImpactAgent.map_company_to_symbol` (lines 50-55). -/
def map_company_to_symbol (company : String) : String :=
  mctsGo company company_symbols

/-- The matching condition of the `map_company_to_symbol` loop, as a
predicate on table entries: case-insensitive containment in either
direction. -/
def symMatch (company : String) (p : String × String) : Bool :=
  strContainsSub (strLower company) (strLower p.1) ||
  strContainsSub (strLower p.1) (strLower company)

/-- `StockImpactAgent.get_direct_impacts` (lines 57-71): one direct impact
per COMPANY entity.  The `reasoning` string is the source's
`f"Company '{entity.text}' directly mentioned"` with the quote characters
around the name omitted. -/
def get_direct_impacts (entities : List Entity) : List StockImpact :=
  entities.filterMap (fun e =>
    if e.type = "COMPANY" then
      some ⟨map_company_to_symbol e.text, confidenceDirect, "direct",
            some ("Company " ++ e.text ++ " directly mentioned")⟩
    else none)

/-- Lookup in the `sector_stocks` dict. -/
def sectorLookup (sector : String) : Option (List String) :=
  (sector_stocks.find? (fun p => p.1 == sector)).map Prod.snd

/-- `StockImpactAgent.get_sector_impacts` (lines 73-89): for each SECTOR
entity present in the `sector_stocks` table, one impact per listed symbol at
the sector_high confidence. -/
def get_sector_impacts (entities : List Entity) : List StockImpact :=
  (entities.map (fun e =>
    if e.type = "SECTOR" then
      match sectorLookup e.text with
      | some symbols => symbols.map (fun sym =>
          (⟨sym, confidenceSectorHigh, "sector",
            some ("Sector " ++ e.text ++ " impacted")⟩ : StockImpact))
      | none => []
    else [])).flatten

/-- `StockImpactAgent.get_regulatory_impacts` (lines 91-112): empty unless
some REGULATOR entity exists; then for each SECTOR entity in the table, one
impact per listed symbol at the regulatory confidence, the reasoning naming
the first regulator found. -/
def get_regulatory_impacts (entities : List Entity) : List StockImpact :=
  match entities.filter (fun e => e.type == "REGULATOR") with
  | [] => []
  | r0 :: _ =>
    ((entities.filter (fun e => e.type == "SECTOR")).map (fun sec =>
      match sectorLookup sec.text with
      | some symbols => symbols.map (fun sym =>
          (⟨sym, confidenceRegulatory, "regulatory",
            some ("Regulatory action by " ++ r0.text ++ " affecting " ++ sec.text)⟩
            : StockImpact))
      | none => [])).flatten

/-- `StockImpactAgent.analyze_with_llm` (lines 114-136): the LLM chain is an
external capability whose parsed outcome is the parameter; any exception
(call or parse failure) is caught and degraded to the empty list. -/
def analyze_with_llm (llmResult : Except String (List StockImpact)) :
    List StockImpact :=
  match llmResult with
  | Except.ok impacts => impacts
  | Except.error _ => []

/-- `StockImpactAgent.process` (lines 152-192).  Duplicates are skipped;
otherwise the four impact sources are concatenated in source order, merged
by symbol, and the impact count recorded.  As with entity extraction, the
typed embedding makes the function's own `except` branch unreachable. -/
def stockImpactProcess (state : AgentState)
    (llmResult : Except String (List StockImpact)) : AgentState :=
  if state.is_duplicate then state
  else
    let impacts :=
      get_direct_impacts state.entities ++
      get_sector_impacts state.entities ++
      get_regulatory_impacts state.entities ++
      analyze_with_llm llmResult
    let merged := merge_impacts impacts
    { state with
      stock_impacts := merged,
      processing_metadata :=
        metaSet state.processing_metadata "impact_count" (MetaVal.int merged.length) }

/-! ### Deduplication stage (`src/vector_store.py`,
`src/agents/deduplication_agent.py`) -/

/-- `VectorStoreManager.find_duplicates` (vector_store.py lines 70-93).

* `threshold` is the explicit argument (default `None` at the only call
  site, `DeduplicationAgent.process`).
* When `threshold is None` the code reads the bare module-level name
  `SIMILARITY_THRESHOLD`; the module imports only `config`, so the read is a
  dynamic name lookup.  Its outcome is the parameter `simThresholdGlobal`:
  `none` models the module as written (the lookup raises `NameError`, which
  escapes `find_duplicates` because it happens before the `try` block);
  `some t` models the name being bound to `t` (the intended
  `config.SIMILARITY_THRESHOLD`).
* `indexResult` is the outcome of the external
  `similarity_search_with_score` call, a list of `(article_id, score)`
  pairs; an exception from it is caught by the inner `try` and degraded to
  the empty list.
* On the success path the comprehension keeps candidates with
  `1.0 - score >= threshold` and an id different from the article's own,
  as `(id, 1.0 - score)` pairs in index order. -/
def find_duplicates (articleId : String) (threshold : Option ℚ)
    (simThresholdGlobal : Option ℚ)
    (indexResult : Except String (List (String × ℚ))) :
    Except String (List (String × ℚ)) :=
  let th? : Except String ℚ :=
    match threshold with
    | some t => Except.ok t
    | none =>
      match simThresholdGlobal with
      | some t => Except.ok t
      | none => Except.error "NameError: name SIMILARITY_THRESHOLD is not defined"
  match th? with
  | Except.error e => Except.error e
  | Except.ok th =>
    match indexResult with
    | Except.error _ => Except.ok []
    | Except.ok results =>
      Except.ok
        ((results.filter (fun p => 1 - p.2 ≥ th ∧ p.1 ≠ articleId)).map
          (fun p => (p.1, 1 - p.2)))

/-- `DeduplicationAgent.process` (deduplication_agent.py lines 12-41).
`find_duplicates` is called with the default threshold; an exception escaping
it is caught and recorded in `state["error"]` with the state otherwise
returned unchanged.  With candidates, the first one is taken as the match;
without, the article is marked unique. -/
def deduplicationProcess (state : AgentState) (simThresholdGlobal : Option ℚ)
    (indexResult : Except String (List (String × ℚ))) : AgentState :=
  match find_duplicates state.article.article_id none simThresholdGlobal indexResult with
  | Except.error e => { state with error := some e }
  | Except.ok [] => { state with is_duplicate := false }
  | Except.ok ((duplicate_id, similarity) :: _) =>
    { state with
      is_duplicate := true,
      duplicate_of := some duplicate_id,
      processing_metadata :=
        metaSet state.processing_metadata "duplicate_similarity" (MetaVal.num similarity) }

/-! ### Storage stage (`src/agents/storage_agent.py`, `src/database.py`,
`VectorStoreManager.add_article`) -/

/-- A row of the `news_articles` table (src/models.py `NewsArticleDB`), the
fields `StorageAgent.process` fills. -/
structure ArticleRow where
  article_id : String
  title : String
  content : String
  source : String
  published_at : String
  url : Option String
  is_duplicate : Bool
  duplicate_of : Option String
deriving DecidableEq, Repr

/-- A row of the `extracted_entities` table (`ExtractedEntityDB`). -/
structure EntityRow where
  article_id : String
  entity_text : String
  entity_type : String
  confidence : ℚ
deriving DecidableEq, Repr

/-- A row of the `stock_impacts` table (`StockImpactDB`). -/
structure ImpactRow where
  article_id : String
  stock_symbol : String
  confidence : ℚ
  impact_type : String
  reasoning : Option String
deriving DecidableEq, Repr

/-- What one storage run durably wrote: the committed database rows, and the
article (id with its entity texts) added to the similarity index.  A failed
`add_article` call may leave a partial index write behind; no claim depends
on it, so only successful index additions are recorded. -/
structure StorageEffect where
  articleRows : List ArticleRow
  entityRows : List EntityRow
  impactRows : List ImpactRow
  indexAdds : List (String × List String)
deriving DecidableEq, Repr

/-- Nothing written. -/
def emptyEffect : StorageEffect := ⟨[], [], [], []⟩

/-- The `NewsArticleDB(...)` construction of `StorageAgent.process`. -/
def mkArticleRow (s : AgentState) : ArticleRow :=
  ⟨s.article.article_id, s.article.title, s.article.content, s.article.source,
   s.article.published_at, s.article.url, s.is_duplicate, s.duplicate_of⟩

/-- The `ExtractedEntityDB(...)` rows, one per entity in state order. -/
def mkEntityRows (s : AgentState) : List EntityRow :=
  s.entities.map (fun e => ⟨s.article.article_id, e.text, e.type, e.confidence⟩)

/-- The `StockImpactDB(...)` rows, one per stock impact in state order. -/
def mkImpactRows (s : AgentState) : List ImpactRow :=
  s.stock_impacts.map (fun i =>
    ⟨s.article.article_id, i.symbol, i.confidence, i.type, i.reasoning⟩)

/-- `StorageAgent.process` (storage_agent.py lines 13-73) together with the
transaction semantics of `get_db_session` (database.py lines 25-36): the
session is committed as one unit on normal exit and rolled back whole when
anything inside the `with` block raises.

* `dbError = some e` models an exception inside the database transaction:
  the rollback leaves no rows, the agent's `except` branch records `e` in
  `state.error` and sets `processing_metadata["stored"] = False`.
* Otherwise all rows commit: the article row always, the entity and impact
  rows only when the article is not a duplicate.
* After the commit, for non-duplicates, `vector_store.add_article` runs;
  `indexError = some e` models it raising (`add_article` re-raises), which
  the agent's `except` branch records the same way — the committed rows are
  untouched.
* On full success `processing_metadata["stored"] = True`. -/
def storageProcess (state : AgentState) (dbError : Option String)
    (indexError : Option String) : AgentState × StorageEffect :=
  match dbError with
  | some e =>
    ({ state with
       error := some e,
       processing_metadata :=
         metaSet state.processing_metadata "stored" (MetaVal.bool false) },
     emptyEffect)
  | none =>
    let committed : StorageEffect :=
      { articleRows := [mkArticleRow state],
        entityRows := if state.is_duplicate then [] else mkEntityRows state,
        impactRows := if state.is_duplicate then [] else mkImpactRows state,
        indexAdds := [] }
    if state.is_duplicate then
      ({ state with
         processing_metadata :=
           metaSet state.processing_metadata "stored" (MetaVal.bool true) },
       committed)
    else
      match indexError with
      | some e =>
        ({ state with
           error := some e,
           processing_metadata :=
             metaSet state.processing_metadata "stored" (MetaVal.bool false) },
         committed)
      | none =>
        ({ state with
           processing_metadata :=
             metaSet state.processing_metadata "stored" (MetaVal.bool true) },
         { committed with
           indexAdds := [(state.article.article_id, state.entities.map Entity.text)] })

/-! ### Pipeline orchestrator (`src/workflow.py`) -/

/-- The external world one pipeline run interacts with, stage by stage. -/
structure PipelineEnv where
  simThresholdGlobal : Option ℚ
  indexResult : Except String (List (String × ℚ))
  entityEnv : EntityEnv
  impactLLM : Except String (List StockImpact)
  dbError : Option String
  indexError : Option String

/-- `NewsProcessingWorkflow.process_article`: the fixed sequence
deduplication → entity extraction → impact analysis → storage on the fresh
initial state, returning the final state; paired here with what storage
durably wrote. -/
def runPipeline (article : NewsArticle) (env : PipelineEnv) :
    AgentState × StorageEffect :=
  let s1 := deduplicationProcess (initialState article) env.simThresholdGlobal
    env.indexResult
  let s2 := entityExtractionProcess s1 env.entityEnv
  let s3 := stockImpactProcess s2 env.impactLLM
  storageProcess s3 env.dbError env.indexError

/-! ### Concrete inputs used by witnesses and counterexamples -/

/-- The witness article: a fresh submission with id `n2`. -/
def wArticle : NewsArticle := ⟨"n2", "t", "c", "src", "2024-01-01", none⟩

/-- The witness environment: the similarity-threshold name bound to 0, the
index returning one neighbour `n1` at score 0 (similarity 1), all external
calls succeeding, storage succeeding. -/
def wEnv : PipelineEnv :=
  ⟨some 0, Except.ok [("n1", 0)], ⟨[], Except.ok emptyLLMEntities⟩,
   Except.ok [], none, none⟩

/-- A non-duplicate state whose `error` is already set. -/
def c6State : AgentState :=
  { article := ⟨"n3", "x", "y", "s", "d", none⟩, is_duplicate := false,
    duplicate_of := none, entities := [], stock_impacts := [],
    processing_metadata := [], error := some "boom" }

/-- The same errored state, carrying one COMPANY entity. -/
def c6StateImp : AgentState :=
  { c6State with entities := [⟨"TCS", "COMPANY", 1⟩] }

/-- A processed non-duplicate state about to be stored. -/
def wStore : AgentState :=
  { article := ⟨"n5", "t5", "c5", "s5", "d5", none⟩, is_duplicate := false,
    duplicate_of := none, entities := [⟨"TCS", "COMPANY", 1⟩],
    stock_impacts := [⟨"TCS", 1, "direct", none⟩],
    processing_metadata := [], error := none }

example :
    merge_entities
      [⟨"Bank", "SECTOR", mkRat 7 10⟩, ⟨"bank", "SECTOR", mkRat 9 10⟩,
       ⟨"Bank", "OTHER", mkRat 1 10⟩]
      = [⟨"Bank", "SECTOR", mkRat 9 10⟩, ⟨"Bank", "OTHER", mkRat 1 10⟩] := by
  decide

/-! ### Lemmas about the entity merge -/

@[simp] lemma text_updateConf (e m : Entity) : (updateConf e m).text = m.text := by
  unfold updateConf; split <;> rfl

@[simp] lemma type_updateConf (e m : Entity) : (updateConf e m).type = m.type := by
  unfold updateConf; split <;> rfl

@[simp] lemma ekey_updateConf (e m : Entity) : ekey (updateConf e m) = ekey m := by
  unfold ekey; rw [text_updateConf, type_updateConf]

lemma updateConf_of_ne {e m : Entity} (h : ekey m ≠ ekey e) : updateConf e m = m := by
  unfold updateConf
  rw [if_neg]
  rintro ⟨h1, -⟩
  exact h h1

lemma conf_le_updateConf (e m : Entity) :
    m.confidence ≤ (updateConf e m).confidence := by
  unfold updateConf
  split
  · next h => exact le_of_lt h.2
  · exact le_refl _

lemma conf_updateConf_cases (e m : Entity) :
    (updateConf e m).confidence = m.confidence ∨
      (ekey e = ekey m ∧ (updateConf e m).confidence = e.confidence) := by
  unfold updateConf
  split
  · next h => exact Or.inr ⟨h.1.symm, rfl⟩
  · exact Or.inl rfl

lemma conf_updateConf_ge {e m : Entity} (h : ekey e = ekey m) :
    e.confidence ≤ (updateConf e m).confidence := by
  unfold updateConf
  split
  · exact le_refl _
  · next hn =>
    rcases lt_or_ge m.confidence e.confidence with hlt | hge
    · exact absurd ⟨h.symm, hlt⟩ hn
    · exact hge

lemma bumpAll_nil (m : Entity) : bumpAll [] m = m := rfl

lemma bumpAll_cons (e : Entity) (es : List Entity) (m : Entity) :
    bumpAll (e :: es) m = bumpAll es (updateConf e m) := rfl

@[simp] lemma text_bumpAll (es : List Entity) (m : Entity) :
    (bumpAll es m).text = m.text := by
  induction es generalizing m with
  | nil => rfl
  | cons e es ih => rw [bumpAll_cons, ih, text_updateConf]

@[simp] lemma type_bumpAll (es : List Entity) (m : Entity) :
    (bumpAll es m).type = m.type := by
  induction es generalizing m with
  | nil => rfl
  | cons e es ih => rw [bumpAll_cons, ih, type_updateConf]

@[simp] lemma ekey_bumpAll (es : List Entity) (m : Entity) :
    ekey (bumpAll es m) = ekey m := by
  unfold ekey; rw [text_bumpAll, type_bumpAll]

/-- The confidence of a bumped entry: at least the original, attained by the
original or by some same-key list member, and at least every same-key list
member's confidence. -/
lemma bumpAll_conf_spec (es : List Entity) (m : Entity) :
    m.confidence ≤ (bumpAll es m).confidence ∧
    ((bumpAll es m).confidence = m.confidence ∨
      ∃ e ∈ es, ekey e = ekey m ∧ e.confidence = (bumpAll es m).confidence) ∧
    ∀ e ∈ es, ekey e = ekey m → e.confidence ≤ (bumpAll es m).confidence := by
  induction es generalizing m with
  | nil => exact ⟨le_refl _, Or.inl rfl, by intro e he; cases he⟩
  | cons e es ih =>
    rw [bumpAll_cons]
    obtain ⟨ih1, ih2, ih3⟩ := ih (updateConf e m)
    have hle : m.confidence ≤ (bumpAll es (updateConf e m)).confidence :=
      le_trans (conf_le_updateConf e m) ih1
    refine ⟨hle, ?_, ?_⟩
    · rcases ih2 with h | ⟨f, hf, hfk, hfc⟩
      · rcases conf_updateConf_cases e m with h0 | ⟨hk, h0⟩
        · exact Or.inl (h.trans h0)
        · exact Or.inr ⟨e, List.mem_cons_self .., hk, (h.trans h0).symm⟩
      · exact Or.inr ⟨f, List.mem_cons_of_mem _ hf,
          (ekey_updateConf e m) ▸ hfk, hfc⟩
    · intro f hf hfk
      rcases List.mem_cons.1 hf with rfl | hf
      · exact le_trans (conf_updateConf_ge hfk) ih1
      · exact ih3 f hf ((ekey_updateConf e m).symm ▸ hfk)

lemma map_ekey_map_updateConf (e : Entity) (l : List Entity) :
    (l.map (updateConf e)).map ekey = l.map ekey := by
  rw [List.map_map]
  exact List.map_congr_left (fun m _ => ekey_updateConf e m)

/-- `newPart` depends on the avoided keys only through membership. -/
lemma newPart_congr_mem :
    ∀ (es : List Entity) (ks ks' : List (String × String)),
      (∀ k, k ∈ ks ↔ k ∈ ks') → newPart es ks = newPart es ks'
  | [], _, _, _ => rfl
  | e :: rest, ks, ks', h => by
    unfold newPart
    by_cases hm : ekey e ∈ ks
    · rw [if_pos hm, if_pos ((h _).1 hm), newPart_congr_mem rest ks ks' h]
    · rw [if_neg hm, if_neg (fun hc => hm ((h _).2 hc))]
      refine congrArg _ (newPart_congr_mem rest _ _ ?_)
      intro k
      simp only [List.mem_cons, h k]

/-- The accumulator characterization of the merge loop: the accumulated
entries each receive every remaining update, and fresh keys contribute
`newPart`. -/
lemma mergeGo_eq :
    ∀ (es acc : List Entity),
      mergeGo es acc = acc.map (bumpAll es) ++ newPart es (acc.map ekey)
  | [], acc => by
    simp only [mergeGo, newPart, List.append_nil]
    conv_lhs => rw [← List.map_id acc]
    exact (List.map_congr_left (fun m _ => rfl)).symm
  | e :: rest, acc => by
    unfold mergeGo
    by_cases h : ekey e ∈ acc.map ekey
    · rw [if_pos h, mergeGo_eq rest (acc.map (updateConf e)),
        map_ekey_map_updateConf, List.map_map]
      have h2 : newPart (e :: rest) (acc.map ekey) = newPart rest (acc.map ekey) := by
        simp only [newPart]; rw [if_pos h]
      rw [h2]
      rfl
    · rw [if_neg h, mergeGo_eq rest (acc ++ [e]), List.map_append]
      have h1 : acc.map (bumpAll rest) = acc.map (bumpAll (e :: rest)) := by
        refine List.map_congr_left (fun m hm => ?_)
        have hne : ekey m ≠ ekey e := by
          intro hc
          exact h (hc ▸ List.mem_map_of_mem ekey hm)
        rw [bumpAll_cons, updateConf_of_ne hne]
      have h2 : newPart (e :: rest) (acc.map ekey) =
          bumpAll rest e :: newPart rest (ekey e :: acc.map ekey) := by
        simp only [newPart]; rw [if_neg h]
      have h3 : newPart rest ((acc ++ [e]).map ekey) =
          newPart rest (ekey e :: acc.map ekey) := by
        refine newPart_congr_mem rest _ _ (fun k => ?_)
        simp only [List.map_append, List.mem_append, List.map_cons,
          List.map_nil, List.mem_singleton, List.mem_cons]
        tauto
      rw [h3, h1, h2]
      simp only [List.map_cons, List.map_nil, List.append_assoc,
        List.singleton_append]

/-- `merge_entities` in closed form. -/
lemma merge_entities_eq (es : List Entity) : merge_entities es = newPart es [] := by
  rw [merge_entities, mergeGo_eq]
  rfl

lemma mem_dedupAvoid {α : Type} [DecidableEq α] :
    ∀ (l ks : List α) (k : α), k ∈ dedupAvoid l ks ↔ k ∈ l ∧ k ∉ ks
  | [], ks, k => by simp [dedupAvoid]
  | k0 :: l, ks, k => by
    unfold dedupAvoid
    by_cases h : k0 ∈ ks
    · rw [if_pos h, mem_dedupAvoid l ks k]
      constructor
      · rintro ⟨h1, h2⟩
        exact ⟨List.mem_cons_of_mem _ h1, h2⟩
      · rintro ⟨h1, h2⟩
        rcases List.mem_cons.1 h1 with rfl | h1
        · exact absurd h h2
        · exact ⟨h1, h2⟩
    · rw [if_neg h, List.mem_cons, mem_dedupAvoid l (k0 :: ks) k]
      constructor
      · rintro (rfl | ⟨h1, h2⟩)
        · exact ⟨List.mem_cons_self .., h⟩
        · exact ⟨List.mem_cons_of_mem _ h1, fun hc => h2 (List.mem_cons_of_mem _ hc)⟩
      · rintro ⟨h1, h2⟩
        rcases List.mem_cons.1 h1 with rfl | h1
        · exact Or.inl rfl
        · by_cases hk : k = k0
          · exact Or.inl hk
          · exact Or.inr ⟨h1, fun hc => by
              rcases List.mem_cons.1 hc with hc | hc
              exacts [hk hc, h2 hc]⟩

lemma dedupAvoid_nodup {α : Type} [DecidableEq α] :
    ∀ (l ks : List α), (dedupAvoid l ks).Nodup
  | [], ks => List.nodup_nil
  | k0 :: l, ks => by
    unfold dedupAvoid
    by_cases h : k0 ∈ ks
    · rw [if_pos h]; exact dedupAvoid_nodup l ks
    · rw [if_neg h]
      refine List.nodup_cons.2 ⟨?_, dedupAvoid_nodup l (k0 :: ks)⟩
      intro hc
      exact ((mem_dedupAvoid l (k0 :: ks) k0).1 hc).2 (List.mem_cons_self ..)

lemma newPart_keys :
    ∀ (es : List Entity) (ks : List (String × String)),
      (newPart es ks).map ekey = dedupAvoid (es.map ekey) ks
  | [], ks => rfl
  | e :: rest, ks => by
    simp only [newPart, List.map_cons, dedupAvoid]
    by_cases h : ekey e ∈ ks
    · rw [if_pos h, if_pos h, newPart_keys rest ks]
    · rw [if_neg h, if_neg h, List.map_cons, ekey_bumpAll, newPart_keys rest (ekey e :: ks)]

/-- Every entry produced by `newPart` has a fresh key, confidence equal to
the maximum over its key group, and the text and type of the group's first
occurrence. -/
lemma newPart_mem_spec :
    ∀ (es : List Entity) (ks : List (String × String)) (m : Entity),
      m ∈ newPart es ks →
        ekey m ∉ ks ∧
        (∃ e ∈ es, ekey e = ekey m ∧ e.confidence = m.confidence) ∧
        (∀ e ∈ es, ekey e = ekey m → e.confidence ≤ m.confidence) ∧
        ∃ f, es.find? (fun e => decide (ekey e = ekey m)) = some f ∧
          m.text = f.text ∧ m.type = f.type
  | [], ks, m => by intro h; cases h
  | e :: rest, ks, m => by
    intro hm
    simp only [newPart] at hm
    by_cases h : ekey e ∈ ks
    · rw [if_pos h] at hm
      obtain ⟨h1, ⟨f, hf, hfk, hfc⟩, h3, ⟨g, hg, hgt, hgy⟩⟩ :=
        newPart_mem_spec rest ks m hm
      have hne : ekey e ≠ ekey m := fun hc => h1 (hc ▸ h)
      refine ⟨h1, ⟨f, List.mem_cons_of_mem _ hf, hfk, hfc⟩, ?_, ?_⟩
      · intro f' hf' hk'
        rcases List.mem_cons.1 hf' with rfl | hf'
        · exact absurd hk' hne
        · exact h3 f' hf' hk'
      · refine ⟨g, ?_, hgt, hgy⟩
        rw [List.find?_cons_of_neg _ (by simpa using hne)]
        exact hg
    · rw [if_neg h] at hm
      rcases List.mem_cons.1 hm with rfl | hm
      · -- the entry for the fresh key of `e` itself
        have hk : ekey (bumpAll rest e) = ekey e := ekey_bumpAll rest e
        obtain ⟨b1, b2, b3⟩ := bumpAll_conf_spec rest e
        refine ⟨hk ▸ h, ?_, ?_, ?_⟩
        · rcases b2 with hb | ⟨f, hf, hfk, hfc⟩
          · exact ⟨e, List.mem_cons_self .., hk.symm, hb.symm⟩
          · exact ⟨f, List.mem_cons_of_mem _ hf, hk ▸ hfk, hfc⟩
        · intro f hf hfk
          rcases List.mem_cons.1 hf with rfl | hf
          · exact b1
          · exact b3 f hf (hk ▸ hfk)
        · refine ⟨e, ?_, (text_bumpAll rest e), (type_bumpAll rest e)⟩
          rw [List.find?_cons_of_pos _ (by simp [hk])]
      · obtain ⟨h1, ⟨f, hf, hfk, hfc⟩, h3, ⟨g, hg, hgt, hgy⟩⟩ :=
          newPart_mem_spec rest (ekey e :: ks) m hm
        have hne : ekey e ≠ ekey m := fun hc => h1 (hc ▸ List.mem_cons_self ..)
        have h1' : ekey m ∉ ks := fun hc => h1 (List.mem_cons_of_mem _ hc)
        refine ⟨h1', ⟨f, List.mem_cons_of_mem _ hf, hfk, hfc⟩, ?_, ?_⟩
        · intro f' hf' hk'
          rcases List.mem_cons.1 hf' with rfl | hf'
          · exact absurd hk' hne
          · exact h3 f' hf' hk'
        · refine ⟨g, ?_, hgt, hgy⟩
          rw [List.find?_cons_of_neg _ (by simpa using hne)]
          exact hg

/-- **C3.** For every list of entities, `merge_entities` keeps exactly one
entry per `(lowercased text, type)` key — the keys of the result are the
input keys with first-occurrence order preserved and no repetition, and
every input key is represented.  The retained entry carries the text and
type of the first-seen entry of its key group (the in-place update never
rewrites them) and a confidence that is attained by some member of the
group and bounds every member of the group, i.e. the maximum over all
contributing entries. -/
theorem merge_entities_correct (es : List Entity) :
    (merge_entities es).map ekey = dedupAvoid (es.map ekey) [] ∧
    ((merge_entities es).map ekey).Nodup ∧
    (∀ e ∈ es, ekey e ∈ (merge_entities es).map ekey) ∧
    ∀ m ∈ merge_entities es,
      (∃ e ∈ es, ekey e = ekey m ∧ e.confidence = m.confidence) ∧
      (∀ e ∈ es, ekey e = ekey m → e.confidence ≤ m.confidence) ∧
      ∃ f, es.find? (fun e => decide (ekey e = ekey m)) = some f ∧
        m.text = f.text ∧ m.type = f.type := by
  have hkeys : (merge_entities es).map ekey = dedupAvoid (es.map ekey) [] := by
    rw [merge_entities_eq, newPart_keys]
  refine ⟨hkeys, hkeys ▸ dedupAvoid_nodup _ _, ?_, ?_⟩
  · intro e he
    rw [hkeys, mem_dedupAvoid]
    exact ⟨List.mem_map_of_mem ekey he, List.not_mem_nil _⟩
  · intro m hm
    rw [merge_entities_eq] at hm
    obtain ⟨-, h2, h3, h4⟩ := newPart_mem_spec es [] m hm
    exact ⟨h2, h3, h4⟩

/-- Witness for C3 at a concrete input: the "Banking" group of three
spellings collapses to its first-seen spelling at the maximal confidence. -/
theorem merge_entities_correct_witness :
    (⟨"Banking", "SECTOR", mkRat 9 10⟩ : Entity) ∈
      merge_entities
        [⟨"Banking", "SECTOR", mkRat 7 10⟩, ⟨"RBI", "REGULATOR", mkRat 9 10⟩,
         ⟨"BANKING", "SECTOR", mkRat 9 10⟩] ∧
    (∃ e ∈ [(⟨"Banking", "SECTOR", mkRat 7 10⟩ : Entity),
            ⟨"RBI", "REGULATOR", mkRat 9 10⟩, ⟨"BANKING", "SECTOR", mkRat 9 10⟩],
       ekey e = ekey ⟨"Banking", "SECTOR", mkRat 9 10⟩ ∧
       e.confidence = (mkRat 9 10 : ℚ)) ∧
    (∀ e ∈ [(⟨"Banking", "SECTOR", mkRat 7 10⟩ : Entity),
            ⟨"RBI", "REGULATOR", mkRat 9 10⟩, ⟨"BANKING", "SECTOR", mkRat 9 10⟩],
       ekey e = ekey ⟨"Banking", "SECTOR", mkRat 9 10⟩ →
       e.confidence ≤ (mkRat 9 10 : ℚ)) ∧
    ∃ f, [(⟨"Banking", "SECTOR", mkRat 7 10⟩ : Entity),
          ⟨"RBI", "REGULATOR", mkRat 9 10⟩,
          ⟨"BANKING", "SECTOR", mkRat 9 10⟩].find?
            (fun e => decide (ekey e = ekey ⟨"Banking", "SECTOR", mkRat 9 10⟩))
          = some f ∧
      (⟨"Banking", "SECTOR", mkRat 9 10⟩ : Entity).text = f.text ∧
      (⟨"Banking", "SECTOR", mkRat 9 10⟩ : Entity).type = f.type := by
  have hmem : (⟨"Banking", "SECTOR", mkRat 9 10⟩ : Entity) ∈
      merge_entities
        [⟨"Banking", "SECTOR", mkRat 7 10⟩, ⟨"RBI", "REGULATOR", mkRat 9 10⟩,
         ⟨"BANKING", "SECTOR", mkRat 9 10⟩] := by decide
  exact ⟨hmem,
    (merge_entities_correct
      [⟨"Banking", "SECTOR", mkRat 7 10⟩, ⟨"RBI", "REGULATOR", mkRat 9 10⟩,
       ⟨"BANKING", "SECTOR", mkRat 9 10⟩]).2.2.2 _ hmem⟩

example :
    merge_impacts
      [⟨"TCS", mkRat 9 10, "direct", none⟩, ⟨"TCS", mkRat 95 100, "sector", none⟩]
      = [⟨"TCS", mkRat 95 100, "sector", none⟩] := by decide

example :
    merge_impacts
      [⟨"TCS", mkRat 9 10, "direct", none⟩, ⟨"TCS", mkRat 9 10, "sector", none⟩]
      = [⟨"TCS", mkRat 9 10, "direct", none⟩] := by decide

/-! ### Lemmas about the impact merge -/

@[simp] lemma symbol_replStep (s i : StockImpact) :
    (replStep s i).symbol = s.symbol := by
  unfold replStep
  split
  · next h => exact h.1
  · rfl

lemma replStep_of_ne {s i : StockImpact} (h : i.symbol ≠ s.symbol) :
    replStep s i = s := by
  unfold replStep
  rw [if_neg]
  rintro ⟨h1, -⟩
  exact h h1

lemma replAll_cons (i : StockImpact) (es : List StockImpact) (s : StockImpact) :
    replAll (i :: es) s = replAll es (replStep s i) := rfl

@[simp] lemma symbol_replAll (es : List StockImpact) (s : StockImpact) :
    (replAll es s).symbol = s.symbol := by
  induction es generalizing s with
  | nil => rfl
  | cons i es ih => rw [replAll_cons, ih, symbol_replStep]

/-- On symbol-matching input the replacement step is the spec's pairwise
rule. -/
lemma replStep_eq_pickRule {s i : StockImpact} (h : i.symbol = s.symbol) :
    replStep s i = pickRule s i := by
  simp [replStep, pickRule, h]

/-- `replAll` ignores impacts with other symbols and folds the pairwise rule
over the symbol group. -/
lemma replAll_filter :
    ∀ (es : List StockImpact) (s : StockImpact),
      replAll es s =
        (es.filter (fun i => i.symbol == s.symbol)).foldl pickRule s
  | [], s => rfl
  | i :: es, s => by
    rw [replAll_cons]
    by_cases h : i.symbol = s.symbol
    · rw [List.filter_cons_of_pos (by simpa using h), List.foldl_cons,
        replAll_filter es (replStep s i), replStep_eq_pickRule h]
      have hsym : (replStep s i).symbol = s.symbol := symbol_replStep s i
      rw [replStep_eq_pickRule h] at hsym
      simp only [hsym]
    · rw [List.filter_cons_of_neg (by simpa using h), replStep_of_ne h,
        replAll_filter es s]

lemma map_symbol_map_replStep (i : StockImpact) (l : List StockImpact) :
    ((l.map (fun s => replStep s i)).map StockImpact.symbol) =
      l.map StockImpact.symbol := by
  rw [List.map_map]
  exact List.map_congr_left (fun s _ => symbol_replStep s i)

/-- `newImpacts` depends on the avoided symbols only through membership. -/
lemma newImpacts_congr_mem :
    ∀ (es : List StockImpact) (ks ks' : List String),
      (∀ k, k ∈ ks ↔ k ∈ ks') → newImpacts es ks = newImpacts es ks'
  | [], _, _, _ => rfl
  | i :: rest, ks, ks', h => by
    unfold newImpacts
    by_cases hm : i.symbol ∈ ks
    · rw [if_pos hm, if_pos ((h _).1 hm), newImpacts_congr_mem rest ks ks' h]
    · rw [if_neg hm, if_neg (fun hc => hm ((h _).2 hc))]
      refine congrArg _ (newImpacts_congr_mem rest _ _ ?_)
      intro k
      simp only [List.mem_cons, h k]

/-- The accumulator characterization of the impact-merge loop. -/
lemma mergeImpactsGo_eq :
    ∀ (es acc : List StockImpact),
      mergeImpactsGo es acc =
        acc.map (replAll es) ++ newImpacts es (acc.map StockImpact.symbol)
  | [], acc => by
    simp only [mergeImpactsGo, newImpacts, List.append_nil]
    conv_lhs => rw [← List.map_id acc]
    exact (List.map_congr_left (fun m _ => rfl)).symm
  | i :: rest, acc => by
    unfold mergeImpactsGo
    by_cases h : i.symbol ∈ acc.map StockImpact.symbol
    · rw [if_pos h, mergeImpactsGo_eq rest (acc.map (fun s => replStep s i)),
        map_symbol_map_replStep, List.map_map]
      have h2 : newImpacts (i :: rest) (acc.map StockImpact.symbol) =
          newImpacts rest (acc.map StockImpact.symbol) := by
        simp only [newImpacts]; rw [if_pos h]
      rw [h2]
      rfl
    · rw [if_neg h, mergeImpactsGo_eq rest (acc ++ [i]), List.map_append]
      have h1 : acc.map (replAll rest) = acc.map (replAll (i :: rest)) := by
        refine List.map_congr_left (fun s hs => ?_)
        have hne : i.symbol ≠ s.symbol := by
          intro hc
          exact h (hc ▸ List.mem_map_of_mem StockImpact.symbol hs)
        rw [replAll_cons, replStep_of_ne hne]
      have h2 : newImpacts (i :: rest) (acc.map StockImpact.symbol) =
          replAll rest i :: newImpacts rest (i.symbol :: acc.map StockImpact.symbol) := by
        simp only [newImpacts]; rw [if_neg h]
      have h3 : newImpacts rest ((acc ++ [i]).map StockImpact.symbol) =
          newImpacts rest (i.symbol :: acc.map StockImpact.symbol) := by
        refine newImpacts_congr_mem rest _ _ (fun k => ?_)
        simp only [List.map_append, List.mem_append, List.map_cons,
          List.map_nil, List.mem_singleton, List.mem_cons]
        tauto
      rw [h3, h1, h2]
      simp only [List.map_cons, List.map_nil, List.append_assoc,
        List.singleton_append]

/-- `merge_impacts` in closed form. -/
lemma merge_impacts_eq (l : List StockImpact) : merge_impacts l = newImpacts l [] := by
  rw [merge_impacts, mergeImpactsGo_eq]
  rfl

lemma newImpacts_keys :
    ∀ (es : List StockImpact) (ks : List String),
      (newImpacts es ks).map StockImpact.symbol =
        dedupAvoid (es.map StockImpact.symbol) ks
  | [], ks => rfl
  | i :: rest, ks => by
    simp only [newImpacts, List.map_cons, dedupAvoid]
    by_cases h : i.symbol ∈ ks
    · rw [if_pos h, if_pos h, newImpacts_keys rest ks]
    · rw [if_neg h, if_neg h, List.map_cons, symbol_replAll,
        newImpacts_keys rest (i.symbol :: ks)]

/-- The pairwise-rule fold selects a member of the group. -/
lemma foldPick_mem :
    ∀ (gs : List StockImpact) (g0 : StockImpact),
      gs.foldl pickRule g0 ∈ g0 :: gs
  | [], g0 => List.mem_singleton.2 rfl
  | b :: gs, g0 => by
    rw [List.foldl_cons]
    have h := foldPick_mem gs (pickRule g0 b)
    have hp : pickRule g0 b = g0 ∨ pickRule g0 b = b := by
      unfold pickRule; split
      · exact Or.inr rfl
      · exact Or.inl rfl
    rcases List.mem_cons.1 h with he | hgs
    · rcases hp with h0 | h0 <;> rw [he, h0]
      · exact List.mem_cons_self ..
      · exact List.mem_cons_of_mem _ (List.mem_cons_self ..)
    · exact List.mem_cons_of_mem _ (List.mem_cons_of_mem _ hgs)

/-- The pairwise-rule fold dominates every member of the group. -/
lemma foldPick_conf_le :
    ∀ (gs : List StockImpact) (g0 x : StockImpact),
      x ∈ g0 :: gs → x.confidence ≤ (gs.foldl pickRule g0).confidence
  | [], g0, x, hx => by
    have hx0 : x = g0 := by simpa using hx
    rw [hx0]
    exact le_refl _
  | b :: gs, g0, x, hx => by
    rw [List.foldl_cons]
    have h1 : g0.confidence ≤ (pickRule g0 b).confidence := by
      unfold pickRule; split
      · next h => exact le_of_lt h
      · exact le_refl _
    have h2 : b.confidence ≤ (pickRule g0 b).confidence := by
      unfold pickRule; split
      · exact le_refl _
      · next h => exact le_of_not_lt h
    have hhead : (pickRule g0 b).confidence ≤
        ((gs.foldl pickRule (pickRule g0 b)).confidence) :=
      foldPick_conf_le gs (pickRule g0 b) _ (List.mem_cons_self ..)
    rcases List.mem_cons.1 hx with rfl | hx
    · exact le_trans h1 hhead
    · rcases List.mem_cons.1 hx with rfl | hx
      · exact le_trans h2 hhead
      · exact foldPick_conf_le gs (pickRule g0 b) x (List.mem_cons_of_mem _ hx)

/-- Every entry produced by `newImpacts` has a fresh symbol and is exactly
the pairwise-rule fold of its symbol group. -/
lemma newImpacts_mem_spec :
    ∀ (es : List StockImpact) (ks : List String) (m : StockImpact),
      m ∈ newImpacts es ks →
        m.symbol ∉ ks ∧
        ∃ g0 gs, es.filter (fun i => i.symbol == m.symbol) = g0 :: gs ∧
          m = gs.foldl pickRule g0
  | [], ks, m => by intro h; cases h
  | i :: rest, ks, m => by
    intro hm
    simp only [newImpacts] at hm
    by_cases h : i.symbol ∈ ks
    · rw [if_pos h] at hm
      obtain ⟨h1, g0, gs, hg, hfold⟩ := newImpacts_mem_spec rest ks m hm
      have hne : i.symbol ≠ m.symbol := fun hc => h1 (hc ▸ h)
      refine ⟨h1, g0, gs, ?_, hfold⟩
      rw [List.filter_cons_of_neg (by simpa using hne)]
      exact hg
    · rw [if_neg h] at hm
      rcases List.mem_cons.1 hm with rfl | hm
      · have hsym : (replAll rest i).symbol = i.symbol := symbol_replAll rest i
        refine ⟨hsym ▸ h, i, rest.filter (fun x => x.symbol == (replAll rest i).symbol),
          ?_, ?_⟩
        · rw [List.filter_cons_of_pos (by simp [hsym])]
        · have := replAll_filter rest i
          simpa [hsym] using this
      · obtain ⟨h1, g0, gs, hg, hfold⟩ :=
          newImpacts_mem_spec rest (i.symbol :: ks) m hm
        have hne : i.symbol ≠ m.symbol :=
          fun hc => h1 (hc ▸ List.mem_cons_self ..)
        have h1' : m.symbol ∉ ks := fun hc => h1 (List.mem_cons_of_mem _ hc)
        refine ⟨h1', g0, gs, ?_, hfold⟩
        rw [List.filter_cons_of_neg (by simpa using hne)]
        exact hg

/-- **C4.** For every list of stock impacts, `merge_impacts` keeps exactly
one entry per symbol (result symbols are the input symbols, first-seen order,
no repetition, all represented).  Each retained entry is one of the input
records taken wholesale — a later record fully replaces the earlier one
exactly when its confidence is strictly greater, ties keeping the first
seen: the retained record is the left fold of that pairwise rule over the
entry's symbol group, and its confidence dominates the whole group. -/
theorem merge_impacts_correct (l : List StockImpact) :
    (merge_impacts l).map StockImpact.symbol =
      dedupAvoid (l.map StockImpact.symbol) [] ∧
    ((merge_impacts l).map StockImpact.symbol).Nodup ∧
    (∀ i ∈ l, i.symbol ∈ (merge_impacts l).map StockImpact.symbol) ∧
    ∀ m ∈ merge_impacts l,
      m ∈ l ∧
      (∀ i ∈ l, i.symbol = m.symbol → i.confidence ≤ m.confidence) ∧
      ∃ g0 gs, l.filter (fun i => i.symbol == m.symbol) = g0 :: gs ∧
        m = gs.foldl pickRule g0 := by
  have hkeys : (merge_impacts l).map StockImpact.symbol =
      dedupAvoid (l.map StockImpact.symbol) [] := by
    rw [merge_impacts_eq, newImpacts_keys]
  refine ⟨hkeys, hkeys ▸ dedupAvoid_nodup _ _, ?_, ?_⟩
  · intro i hi
    rw [hkeys, mem_dedupAvoid]
    exact ⟨List.mem_map_of_mem StockImpact.symbol hi, List.not_mem_nil _⟩
  · intro m hm
    rw [merge_impacts_eq] at hm
    obtain ⟨-, g0, gs, hg, hfold⟩ := newImpacts_mem_spec l [] m hm
    have hmem : m ∈ l := by
      have := foldPick_mem gs g0
      rw [← hfold, ← hg] at this
      exact List.mem_of_mem_filter this
    refine ⟨hmem, ?_, g0, gs, hg, hfold⟩
    intro i hi hisym
    have hif : i ∈ g0 :: gs := by
      rw [← hg]
      exact List.mem_filter.2 ⟨hi, by simpa using hisym⟩
    rw [hfold]
    exact foldPick_conf_le gs g0 i hif

/-- Witness for C4 at a concrete input: the spec's own example — the later,
strictly more confident TCS record replaces the earlier one wholesale. -/
theorem merge_impacts_correct_witness :
    (⟨"TCS", mkRat 95 100, "sector", none⟩ : StockImpact) ∈
      merge_impacts
        [⟨"TCS", mkRat 9 10, "direct", none⟩,
         ⟨"TCS", mkRat 95 100, "sector", none⟩,
         ⟨"INFY", mkRat 5 10, "direct", none⟩] ∧
    ((⟨"TCS", mkRat 95 100, "sector", none⟩ : StockImpact) ∈
      [(⟨"TCS", mkRat 9 10, "direct", none⟩ : StockImpact),
       ⟨"TCS", mkRat 95 100, "sector", none⟩,
       ⟨"INFY", mkRat 5 10, "direct", none⟩] ∧
     (∀ i ∈ [(⟨"TCS", mkRat 9 10, "direct", none⟩ : StockImpact),
             ⟨"TCS", mkRat 95 100, "sector", none⟩,
             ⟨"INFY", mkRat 5 10, "direct", none⟩],
        i.symbol = "TCS" → i.confidence ≤ (mkRat 95 100 : ℚ)) ∧
     ∃ g0 gs,
       [(⟨"TCS", mkRat 9 10, "direct", none⟩ : StockImpact),
        ⟨"TCS", mkRat 95 100, "sector", none⟩,
        ⟨"INFY", mkRat 5 10, "direct", none⟩].filter
          (fun i => i.symbol == "TCS") = g0 :: gs ∧
       (⟨"TCS", mkRat 95 100, "sector", none⟩ : StockImpact) =
         gs.foldl pickRule g0) := by
  have hmem : (⟨"TCS", mkRat 95 100, "sector", none⟩ : StockImpact) ∈
      merge_impacts
        [⟨"TCS", mkRat 9 10, "direct", none⟩,
         ⟨"TCS", mkRat 95 100, "sector", none⟩,
         ⟨"INFY", mkRat 5 10, "direct", none⟩] := by decide
  exact ⟨hmem,
    (merge_impacts_correct
      [⟨"TCS", mkRat 9 10, "direct", none⟩,
       ⟨"TCS", mkRat 95 100, "sector", none⟩,
       ⟨"INFY", mkRat 5 10, "direct", none⟩]).2.2.2 _ hmem⟩

/-! ### Stage-level lemmas -/

lemma dedup_entities (s : AgentState) (g : Option ℚ)
    (i : Except String (List (String × ℚ))) :
    (deduplicationProcess s g i).entities = s.entities := by
  unfold deduplicationProcess
  split <;> rfl

lemma dedup_impacts (s : AgentState) (g : Option ℚ)
    (i : Except String (List (String × ℚ))) :
    (deduplicationProcess s g i).stock_impacts = s.stock_impacts := by
  unfold deduplicationProcess
  split <;> rfl

lemma entity_skip {s : AgentState} (env : EntityEnv) (h : s.is_duplicate = true) :
    entityExtractionProcess s env = s := by
  simp [entityExtractionProcess, h]

lemma impact_skip {s : AgentState} (llm : Except String (List StockImpact))
    (h : s.is_duplicate = true) :
    stockImpactProcess s llm = s := by
  simp [stockImpactProcess, h]

lemma entity_error_preserved (s : AgentState) (env : EntityEnv) :
    (entityExtractionProcess s env).error = s.error := by
  cases h : s.is_duplicate <;> simp [entityExtractionProcess, h]

lemma impact_error_preserved (s : AgentState)
    (llm : Except String (List StockImpact)) :
    (stockImpactProcess s llm).error = s.error := by
  cases h : s.is_duplicate <;> simp [stockImpactProcess, h]

lemma entity_is_duplicate_preserved (s : AgentState) (env : EntityEnv) :
    (entityExtractionProcess s env).is_duplicate = s.is_duplicate := by
  cases h : s.is_duplicate <;> simp [entityExtractionProcess, h]

lemma metaGet_metaSet :
    ∀ (m : List (String × MetaVal)) (k : String) (v : MetaVal),
      metaGet (metaSet m k v) k = some v
  | [], k, v => by simp [metaSet, metaGet]
  | (k0, v0) :: rest, k, v => by
    unfold metaSet
    by_cases h : k0 = k
    · rw [if_pos h]
      simp [metaGet]
    · rw [if_neg h]
      unfold metaGet
      rw [if_neg h]
      exact metaGet_metaSet rest k v

/-! ### C1: the duplicate short-circuit -/

/-- **C1.** When the state coming out of the deduplication stage is marked
duplicate, the pipeline's final state has empty `entities` and
`stock_impacts`, storage writes no entity rows, no impact rows and adds
nothing to the similarity index, and (when the database transaction goes
through) the only row written is the article row carrying the duplicate
pointer of the deduplication outcome. -/
theorem duplicate_short_circuit (article : NewsArticle) (env : PipelineEnv)
    (h : (deduplicationProcess (initialState article) env.simThresholdGlobal
      env.indexResult).is_duplicate = true) :
    (runPipeline article env).1.entities = [] ∧
    (runPipeline article env).1.stock_impacts = [] ∧
    (runPipeline article env).2.entityRows = [] ∧
    (runPipeline article env).2.impactRows = [] ∧
    (runPipeline article env).2.indexAdds = [] ∧
    (env.dbError = none →
      (runPipeline article env).2.articleRows =
        [mkArticleRow (deduplicationProcess (initialState article)
          env.simThresholdGlobal env.indexResult)]) := by
  have hent : (deduplicationProcess (initialState article) env.simThresholdGlobal
      env.indexResult).entities = [] := by
    rw [dedup_entities]; rfl
  have himp : (deduplicationProcess (initialState article) env.simThresholdGlobal
      env.indexResult).stock_impacts = [] := by
    rw [dedup_impacts]; rfl
  have hrun : runPipeline article env =
      storageProcess (deduplicationProcess (initialState article)
        env.simThresholdGlobal env.indexResult) env.dbError env.indexError := by
    show storageProcess (stockImpactProcess (entityExtractionProcess
      (deduplicationProcess (initialState article) env.simThresholdGlobal
        env.indexResult) env.entityEnv) env.impactLLM) env.dbError env.indexError = _
    rw [entity_skip env.entityEnv h, impact_skip env.impactLLM h]
  rw [hrun]
  cases hdb : env.dbError with
  | some e =>
    refine ⟨?_, ?_, ?_, ?_, ?_, ?_⟩ <;>
      simp [storageProcess, emptyEffect, hent, himp]
  | none =>
    refine ⟨?_, ?_, ?_, ?_, ?_, ?_⟩ <;>
      simp [storageProcess, h, hent, himp]

lemma wfilter_eval :
    (([("n1", (0:ℚ))].filter (fun p => 1 - p.2 ≥ (0:ℚ) ∧ p.1 ≠ "n2")).map
      (fun p => (p.1, 1 - p.2))) = [("n1", 1 - 0)] := by
  rw [List.filter_cons_of_pos]
  · rfl
  · exact decide_eq_true ⟨by norm_num, by decide⟩

lemma wdup_eval :
    deduplicationProcess (initialState wArticle) (some 0)
      (Except.ok [("n1", 0)]) =
      { initialState wArticle with
        is_duplicate := true, duplicate_of := some "n1",
        processing_metadata := [("duplicate_similarity", MetaVal.num (1 - 0))] } := by
  unfold deduplicationProcess
  have hfd : find_duplicates (initialState wArticle).article.article_id none
      (some 0) (Except.ok [("n1", (0:ℚ))]) = Except.ok [("n1", 1 - 0)] :=
    congrArg Except.ok wfilter_eval
  rw [hfd]
  rfl

/-- Witness for C1: the duplicate short-circuit at the concrete environment
`wEnv`, where the dedup stage flags `n2` as a duplicate of `n1`. -/
theorem duplicate_short_circuit_witness :
    (deduplicationProcess (initialState wArticle) wEnv.simThresholdGlobal
      wEnv.indexResult).is_duplicate = true ∧
    ((runPipeline wArticle wEnv).1.entities = [] ∧
     (runPipeline wArticle wEnv).1.stock_impacts = [] ∧
     (runPipeline wArticle wEnv).2.entityRows = [] ∧
     (runPipeline wArticle wEnv).2.impactRows = [] ∧
     (runPipeline wArticle wEnv).2.indexAdds = [] ∧
     (wEnv.dbError = none →
       (runPipeline wArticle wEnv).2.articleRows =
         [mkArticleRow (deduplicationProcess (initialState wArticle)
           wEnv.simThresholdGlobal wEnv.indexResult)])) :=
  ⟨by simp only [wEnv, wdup_eval],
   duplicate_short_circuit wArticle wEnv (by simp only [wEnv, wdup_eval])⟩

/-! ### C2: the similarity-threshold name bug -/

/-- Case analysis of the deduplication stage on a successful
`find_duplicates` outcome. -/
lemma dedup_ok_cases (s : AgentState) (g : Option ℚ)
    (idx : Except String (List (String × ℚ))) (L : List (String × ℚ))
    (hL : find_duplicates s.article.article_id none g idx = Except.ok L) :
    (L = [] → deduplicationProcess s g idx = { s with is_duplicate := false }) ∧
    ∀ d ds, L = d :: ds →
      deduplicationProcess s g idx =
        { s with
          is_duplicate := true, duplicate_of := some d.1,
          processing_metadata :=
            metaSet s.processing_metadata "duplicate_similarity" (MetaVal.num d.2) } := by
  unfold deduplicationProcess
  rw [hL]
  constructor
  · rintro rfl
    rfl
  · rintro d ds rfl
    cases d
    rfl

/-- The behaviour the deduplication stage has when the module-level name
`SIMILARITY_THRESHOLD` is bound to `t` — the spec's intended reading:
similarity `1 − score`, self-id exclusion, threshold filter, the first
remaining candidate (which dominates all survivors when the index returns
scores in ascending order, as Chroma does) as the match, its similarity in
metadata, error untouched. -/
theorem dedup_with_bound_threshold (s : AgentState) (t : ℚ)
    (results : List (String × ℚ)) :
    (deduplicationProcess s (some t) (Except.ok results)).error = s.error ∧
    ((results.filter (fun p => 1 - p.2 ≥ t ∧ p.1 ≠ s.article.article_id)).map
        (fun p => (p.1, 1 - p.2)) = [] →
      deduplicationProcess s (some t) (Except.ok results) =
        { s with is_duplicate := false }) ∧
    ∀ d ds,
      (results.filter (fun p => 1 - p.2 ≥ t ∧ p.1 ≠ s.article.article_id)).map
        (fun p => (p.1, 1 - p.2)) = d :: ds →
      deduplicationProcess s (some t) (Except.ok results) =
        { s with
          is_duplicate := true, duplicate_of := some d.1,
          processing_metadata :=
            metaSet s.processing_metadata "duplicate_similarity" (MetaVal.num d.2) } ∧
      (results.Pairwise (fun p q => p.2 ≤ q.2) → ∀ x ∈ d :: ds, x.2 ≤ d.2) := by
  have hfd : find_duplicates s.article.article_id none (some t) (Except.ok results) =
      Except.ok ((results.filter (fun p => 1 - p.2 ≥ t ∧ p.1 ≠ s.article.article_id)).map
        (fun p => (p.1, 1 - p.2))) := rfl
  obtain ⟨hnil, hcons⟩ := dedup_ok_cases s (some t) (Except.ok results)
    ((results.filter (fun p => 1 - p.2 ≥ t ∧ p.1 ≠ s.article.article_id)).map
      (fun p => (p.1, 1 - p.2))) hfd
  refine ⟨?_, hnil, ?_⟩
  · cases hL : (results.filter (fun p => 1 - p.2 ≥ t ∧ p.1 ≠ s.article.article_id)).map
        (fun p => (p.1, 1 - p.2)) with
    | nil => rw [hnil hL]
    | cons d ds => rw [hcons d ds hL]
  · intro d ds hL
    refine ⟨hcons d ds hL, ?_⟩
    intro hpw x hx
    have hmap : ((results.filter (fun p => 1 - p.2 ≥ t ∧ p.1 ≠ s.article.article_id)).map
        (fun p => (p.1, 1 - p.2))).Pairwise (fun p q => q.2 ≤ p.2) := by
      refine List.Pairwise.map _ (fun a b hab => ?_) (hpw.filter _)
      exact sub_le_sub_left hab 1
    rw [hL] at hmap
    rcases List.mem_cons.1 hx with rfl | hx
    · exact le_refl _
    · exact (List.pairwise_cons.1 hmap).1 x hx

/-- **C2 (code bug).** On the default call path
(`DeduplicationAgent.process` passes no threshold), `find_duplicates`
evaluates the unbound name `SIMILARITY_THRESHOLD` and raises `NameError`
before the index is ever queried; the agent catches it, records it in
`state.error` and leaves the article marked non-duplicate — no similarity is
computed and no threshold filtering happens, contrary to the claim. -/
theorem dedup_threshold_name_error :
    (deduplicationProcess (initialState wArticle) none
      (Except.ok [("n1", 0)])).error =
        some "NameError: name SIMILARITY_THRESHOLD is not defined" ∧
    (deduplicationProcess (initialState wArticle) none
      (Except.ok [("n1", 0)])).is_duplicate = false ∧
    deduplicationProcess (initialState wArticle) none (Except.ok [("n1", 0)]) =
      { initialState wArticle with
        error := some "NameError: name SIMILARITY_THRESHOLD is not defined" } :=
  ⟨rfl, rfl, rfl⟩

/-! ### C5: index failures are swallowed, not recorded -/

/-- **C5 (counterexample).** With the threshold name bound (so that the
index is actually queried) and the index raising, the deduplication stage
returns a state whose `error` is still `none` — the exception's message is
not recorded into `state.error` as the claim states. -/
theorem dedup_index_error_counterexample :
    (deduplicationProcess (initialState wArticle) (some 0)
      (Except.error "index down")).error = none ∧
    (deduplicationProcess (initialState wArticle) (some 0)
      (Except.error "index down")).is_duplicate = false :=
  ⟨rfl, rfl⟩

/-- **C5 (amended).** An exception of the index query is caught inside
`find_duplicates`, which returns the empty candidate list, so the stage
marks the article non-duplicate and leaves `error` unchanged (fail-open).
Only an exception escaping `find_duplicates` — in the module as written, the
`NameError` for the unbound threshold name — is recorded into `state.error`,
with the state otherwise returned unmodified. -/
theorem dedup_index_failure_fail_open (s : AgentState) (t : ℚ) (msg : String)
    (idx : Except String (List (String × ℚ))) :
    deduplicationProcess s (some t) (Except.error msg) =
      { s with is_duplicate := false } ∧
    deduplicationProcess s none idx =
      { s with error := some "NameError: name SIMILARITY_THRESHOLD is not defined" } :=
  ⟨rfl, rfl⟩

/-! ### C6: the stages do not look at `error` -/

/-- **C6 (counterexample).** A non-duplicate state with `error` already set
is not passed through: the entity-extraction stage overwrites `entities`
(here via a spaCy ORG span) and the impact stage overwrites `stock_impacts`
(here via the COMPANY entity in the state). -/
theorem stages_mutate_despite_error_counterexample :
    c6State.error = some "boom" ∧ c6State.is_duplicate = false ∧
    (entityExtractionProcess c6State
      ⟨[⟨"Acme", "ORG"⟩], Except.ok emptyLLMEntities⟩).entities ≠
        c6State.entities ∧
    c6StateImp.error = some "boom" ∧ c6StateImp.is_duplicate = false ∧
    (stockImpactProcess c6StateImp (Except.ok [])).stock_impacts ≠
      c6StateImp.stock_impacts := by
  refine ⟨rfl, rfl, ?_, rfl, rfl, ?_⟩ <;> decide

/-- **C6 (amended).** The entity-extraction and impact-analysis stages
ignore `error` entirely: running either stage on a state with `error` set
gives exactly the result of running it on the same state without, with the
error carried through — in particular, when `is_duplicate` is false they
still recompute and overwrite `entities` and `stock_impacts`; only
`is_duplicate = true` causes a pass-through. -/
theorem stages_ignore_error (s : AgentState) (env : EntityEnv)
    (llm : Except String (List StockImpact)) (eo : Option String) :
    entityExtractionProcess { s with error := eo } env =
      { entityExtractionProcess s env with error := eo } ∧
    stockImpactProcess { s with error := eo } llm =
      { stockImpactProcess s llm with error := eo } := by
  cases h : s.is_duplicate <;>
    exact ⟨by simp [entityExtractionProcess, h], by simp [stockImpactProcess, h]⟩

/-! ### C7: LLM failures degrade to empty results -/

/-- **C7.** A failure of the LLM extraction capability behaves exactly as a
successful call returning the five empty lists, a failure of the LLM
reasoning capability exactly as a successful call returning the empty
impact list, and neither stage ever touches `error`: a state entering with
`error = None` leaves both stages with `error = None`. -/
theorem llm_failure_fail_soft (s : AgentState) (sp : List SpacyEnt)
    (msg msg2 : String) (env : EntityEnv)
    (llm : Except String (List StockImpact)) :
    entityExtractionProcess s ⟨sp, Except.error msg⟩ =
      entityExtractionProcess s ⟨sp, Except.ok emptyLLMEntities⟩ ∧
    stockImpactProcess s (Except.error msg2) =
      stockImpactProcess s (Except.ok []) ∧
    (s.error = none →
      (entityExtractionProcess s env).error = none ∧
      (stockImpactProcess s llm).error = none) := by
  refine ⟨rfl, rfl, fun h => ⟨?_, ?_⟩⟩
  · rw [entity_error_preserved, h]
  · rw [impact_error_preserved, h]

/-- Witness for C7 at the concrete fresh state of `wArticle`. -/
theorem llm_failure_fail_soft_witness :
    (initialState wArticle).error = none ∧
    (entityExtractionProcess (initialState wArticle) ⟨[], Except.error "llm down"⟩ =
       entityExtractionProcess (initialState wArticle) ⟨[], Except.ok emptyLLMEntities⟩ ∧
     stockImpactProcess (initialState wArticle) (Except.error "nope") =
       stockImpactProcess (initialState wArticle) (Except.ok []) ∧
     ((initialState wArticle).error = none →
       (entityExtractionProcess (initialState wArticle)
         ⟨[], Except.ok emptyLLMEntities⟩).error = none ∧
       (stockImpactProcess (initialState wArticle) (Except.ok [])).error = none)) :=
  ⟨rfl, llm_failure_fail_soft (initialState wArticle) [] "llm down" "nope"
    ⟨[], Except.ok emptyLLMEntities⟩ (Except.ok [])⟩

/-! ### C8 and C10: storage transaction semantics -/

/-- **C8.** Storage is all-or-nothing on the database side: either nothing
is committed or exactly the article row plus (for non-duplicates) the entity
and impact rows.  A database exception rolls back everything, is recorded in
`state.error` and sets `metadata["stored"] = false`; an indexing exception
after the commit is recorded the same way. -/
theorem storage_atomicity (s : AgentState) (dbe idxe : Option String) :
    ((storageProcess s dbe idxe).2.articleRows = [] ∨
      (storageProcess s dbe idxe).2.articleRows = [mkArticleRow s]) ∧
    (∀ e, dbe = some e →
      (storageProcess s dbe idxe).1.error = some e ∧
      metaGet (storageProcess s dbe idxe).1.processing_metadata "stored" =
        some (MetaVal.bool false) ∧
      (storageProcess s dbe idxe).2 = emptyEffect) ∧
    (dbe = none →
      (storageProcess s dbe idxe).2.articleRows = [mkArticleRow s] ∧
      (storageProcess s dbe idxe).2.entityRows =
        (if s.is_duplicate then [] else mkEntityRows s) ∧
      (storageProcess s dbe idxe).2.impactRows =
        (if s.is_duplicate then [] else mkImpactRows s)) ∧
    ∀ e, dbe = none → s.is_duplicate = false → idxe = some e →
      (storageProcess s dbe idxe).1.error = some e ∧
      metaGet (storageProcess s dbe idxe).1.processing_metadata "stored" =
        some (MetaVal.bool false) := by
  cases dbe with
  | some e0 =>
    refine ⟨Or.inl (by simp [storageProcess, emptyEffect]), ?_, ?_, ?_⟩
    · intro e he
      injection he with he
      subst he
      exact ⟨by simp [storageProcess], by simp [storageProcess, metaGet_metaSet],
        by simp [storageProcess, emptyEffect]⟩
    · intro hc
      exact Option.noConfusion hc
    · intro e hc
      exact Option.noConfusion hc
  | none =>
    refine ⟨Or.inr ?_, ?_, ?_, ?_⟩
    · cases h : s.is_duplicate <;> cases idxe <;> simp [storageProcess, h]
    · intro e hc
      exact Option.noConfusion hc
    · intro _
      refine ⟨?_, ?_, ?_⟩ <;> cases h : s.is_duplicate <;> cases idxe <;>
        simp [storageProcess, h]
    · intro e _ h2 h3
      subst h3
      exact ⟨by simp [storageProcess, h2], by simp [storageProcess, h2, metaGet_metaSet]⟩

/-- Witness for C8: a database failure at a concrete non-duplicate state
rolls everything back, records the error and `stored = false`. -/
theorem storage_atomicity_witness :
    (storageProcess wStore (some "db down") none).1.error = some "db down" ∧
    metaGet (storageProcess wStore (some "db down") none).1.processing_metadata
      "stored" = some (MetaVal.bool false) ∧
    (storageProcess wStore (some "db down") none).2 = emptyEffect :=
  (storage_atomicity wStore (some "db down") none).2.1 "db down" rfl

/-- **C10.** For a non-duplicate state, when the transaction commits and the
subsequent similarity-index insertion raises, storage reports failure
(`error` set, `stored = false`) while the article, entity and impact rows
stay committed and nothing is recorded as added to the index: the database
write and the index write are not atomic with each other. -/
theorem storage_index_failure_after_commit (s : AgentState) (e : String)
    (h : s.is_duplicate = false) :
    storageProcess s none (some e) =
      ({ s with
         error := some e,
         processing_metadata :=
           metaSet s.processing_metadata "stored" (MetaVal.bool false) },
       ⟨[mkArticleRow s], mkEntityRows s, mkImpactRows s, []⟩) := by
  simp [storageProcess, h]

/-- Witness for C10 at the concrete stored state `wStore`. -/
theorem storage_index_failure_after_commit_witness :
    wStore.is_duplicate = false ∧
    storageProcess wStore none (some "index down") =
      ({ wStore with
         error := some "index down",
         processing_metadata :=
           metaSet wStore.processing_metadata "stored" (MetaVal.bool false) },
       ⟨[mkArticleRow wStore], mkEntityRows wStore, mkImpactRows wStore, []⟩) :=
  ⟨rfl, storage_index_failure_after_commit wStore "index down" rfl⟩

/-! ### C9: company-to-symbol resolution -/

/-- The loop of `map_company_to_symbol` is first-match search over the
table, with fallback when nothing matches. -/
lemma mctsGo_spec (company : String) :
    ∀ l : List (String × String),
      (l.find? (symMatch company) = none →
        mctsGo company l = strTake (stripSpaces (strUpper company)) 10) ∧
      ∀ nm sym, l.find? (symMatch company) = some (nm, sym) →
        mctsGo company l = sym
  | [] => ⟨fun _ => rfl, fun nm sym h => Option.noConfusion h⟩
  | (n, s) :: l => by
    by_cases hc : symMatch company (n, s) = true
    · have hcb : (strContainsSub (strLower company) (strLower n) ||
          strContainsSub (strLower n) (strLower company)) = true := hc
      constructor
      · intro hn
        rw [List.find?_cons_of_pos _ hc] at hn
        exact Option.noConfusion hn
      · intro nm sym hfind
        rw [List.find?_cons_of_pos _ hc] at hfind
        have h2 : n = nm ∧ s = sym := by
          injection hfind with h3
          exact ⟨congrArg Prod.fst h3, congrArg Prod.snd h3⟩
        simp only [mctsGo]
        rw [if_pos hcb]
        exact h2.2
    · have hcb : ¬ ((strContainsSub (strLower company) (strLower n) ||
          strContainsSub (strLower n) (strLower company)) = true) := hc
      constructor
      · intro hn
        rw [List.find?_cons_of_neg _ (by simpa using hc)] at hn
        simp only [mctsGo]
        rw [if_neg hcb]
        exact (mctsGo_spec company l).1 hn
      · intro nm sym hfind
        rw [List.find?_cons_of_neg _ (by simpa using hc)] at hfind
        simp only [mctsGo]
        rw [if_neg hcb]
        exact (mctsGo_spec company l).2 nm sym hfind

/-- `get_direct_impacts` as filter-the-companies-then-map. -/
lemma get_direct_impacts_eq :
    ∀ entities : List Entity,
      get_direct_impacts entities =
        (entities.filter (fun e => e.type == "COMPANY")).map (fun e =>
          ⟨map_company_to_symbol e.text, confidenceDirect, "direct",
           some ("Company " ++ e.text ++ " directly mentioned")⟩)
  | [] => rfl
  | e :: l => by
    have ih := get_direct_impacts_eq l
    by_cases h : e.type = "COMPANY"
    · have hb : (e.type == "COMPANY") = true := by simpa using h
      simp only [get_direct_impacts, List.filterMap_cons, List.filter_cons, hb,
        if_true, if_pos h, List.map_cons] at ih ⊢
      rw [ih]
    · have hb : (e.type == "COMPANY") = false := by simpa using h
      simp only [get_direct_impacts, List.filterMap_cons, List.filter_cons, hb,
        if_false, if_neg h, Bool.false_eq_true] at ih ⊢
      rw [ih]

/-- **C9.** For every company string, `map_company_to_symbol` returns the
symbol of the first table entry matching by case-insensitive containment in
either direction (`symMatch`), and, when no entry matches, the derived
fallback symbol: the text uppercased, spaces stripped, truncated to 10
characters; and the direct-impact source applies exactly this resolution to
each COMPANY entity at the configured direct confidence. -/
theorem company_symbol_resolution :
    (∀ company : String,
      (company_symbols.find? (symMatch company) = none →
        map_company_to_symbol company = strTake (stripSpaces (strUpper company)) 10) ∧
      ∀ nm sym, company_symbols.find? (symMatch company) = some (nm, sym) →
        map_company_to_symbol company = sym) ∧
    ∀ entities : List Entity,
      get_direct_impacts entities =
        (entities.filter (fun e => e.type == "COMPANY")).map (fun e =>
          ⟨map_company_to_symbol e.text, confidenceDirect, "direct",
           some ("Company " ++ e.text ++ " directly mentioned")⟩) :=
  ⟨fun company => mctsGo_spec company company_symbols, get_direct_impacts_eq⟩

/-- Witness for C9: `HDFC Bank Ltd` resolves through the table's first
matching entry to `HDFCBANK`; `Zomato` matches nothing and falls back to the
derived symbol. -/
theorem company_symbol_resolution_witness :
    (company_symbols.find? (symMatch "HDFC Bank Ltd") =
        some ("HDFC Bank", "HDFCBANK") ∧
     map_company_to_symbol "HDFC Bank Ltd" = "HDFCBANK") ∧
    (company_symbols.find? (symMatch "Zomato") = none ∧
     map_company_to_symbol "Zomato" = strTake (stripSpaces (strUpper "Zomato")) 10) :=
  ⟨⟨by decide, (company_symbol_resolution.1 "HDFC Bank Ltd").2 "HDFC Bank"
      "HDFCBANK" (by decide)⟩,
   ⟨by decide, (company_symbol_resolution.1 "Zomato").1 (by decide)⟩⟩

end FinNews
